import Mathlib

/-!
Verification of the grouped word-coloring resolution policy of
`examples/colored_by_group.py`.

The source defines two color-resolver classes:

* `SimpleGroupedColorFunc` builds, in `__init__`, a word-to-color dict by the
  comprehension `{word: color for (color, words) in color_to_words.items()
  for word in words}` and stores the default color; `__call__(word, **kwargs)`
  returns `self.word_to_color.get(word, self.default_color)`.
* `GroupedColorFunc` builds, in `__init__`, the list
  `[(get_single_color_func(color), set(words)) for (color, words) in
  color_to_words.items()]` and `get_single_color_func(default_color)`;
  `get_color_func(word)` returns the first color function whose word set
  contains the word (via `next(...)`, falling back to the default on
  `StopIteration`), and `__call__(word, **kwargs)` applies it.

Python dicts are embedded as association lists with insertion-order
semantics (`dictInsert` overwrites the value of an existing key in place);
the external `wordcloud.get_single_color_func` factory is not under the
example's source and is modelled from the specification.
-/

/-- Auxiliary layout/rendering metadata passed by the layout engine to the
color callback: `(word, font_size, position, orientation, random_state,
**extra)`.  The resolvers receive it as `**kwargs` and ignore it for color
selection. -/
structure Kwargs where
  font_size : Nat
  position : Int × Int
  orientation : Option Nat
  random_state : Nat
  extra : List (String × String)
deriving DecidableEq

/-- Python-dict insertion on an association list: overwrite the value of an
existing key in place, else append the new binding at the end.  This is the
semantics of one `d[k] = v` step of a dict comprehension. -/
def dictInsert {α : Type} : List (String × α) → String → α → List (String × α)
  | [], k, v => [(k, v)]
  | (k', v') :: rest, k, v =>
    if k' = k then (k, v) :: rest else (k', v') :: dictInsert rest k v

/-- Python-dict lookup on an association list (`d.get(k)` returning `None`
when absent). -/
def dictGet {α : Type} : List (String × α) → String → Option α
  | [], _ => none
  | (k', v) :: rest, k => if k' = k then some v else dictGet rest k

/-- The dict comprehension of `SimpleGroupedColorFunc.__init__`:
`{word: color for (color, words) in color_to_words.items() for word in words}`,
iterating the groups in input order and the words of each group in order,
inserting `word ↦ color` at each step (so a later insertion for the same word
overwrites an earlier one). -/
def buildIndex (color_to_words : List (String × List String)) :
    List (String × String) :=
  color_to_words.foldl
    (fun d cw => cw.2.foldl (fun d w => dictInsert d w cw.1) d) []

/-- State of `SimpleGroupedColorFunc`: the derived word-to-color index and the
default color, both assigned in `__init__`. -/
structure SimpleGroupedColorFunc where
  word_to_color : List (String × String)
  default_color : String
deriving DecidableEq

/-- `SimpleGroupedColorFunc.__init__(color_to_words, default_color)`. -/
def SimpleGroupedColorFunc.init (color_to_words : List (String × List String))
    (default_color : String) : SimpleGroupedColorFunc :=
  { word_to_color := buildIndex color_to_words
    default_color := default_color }

/-- `SimpleGroupedColorFunc.__call__(word, **kwargs)`:
`return self.word_to_color.get(word, self.default_color)`. -/
def SimpleGroupedColorFunc.call (s : SimpleGroupedColorFunc) (word : String)
    (_kwargs : Kwargs) : String :=
  (dictGet s.word_to_color word).getD s.default_color

/-- `SimpleGroupedColorFunc.__call__` as a state transformer: the method body
is a single `return` expression with no assignment, so the resolver state is
returned unchanged alongside the result. -/
def SimpleGroupedColorFunc.callT (s : SimpleGroupedColorFunc) (word : String)
    (kwargs : Kwargs) : String × SimpleGroupedColorFunc :=
  (s.call word kwargs, s)

/-- A sequence of queries against a `SimpleGroupedColorFunc`, threading the
resolver state through every call; returns the answers in order and the final
state. -/
def runCallsSimple (s : SimpleGroupedColorFunc) :
    List (String × Kwargs) → List String × SimpleGroupedColorFunc
  | [] => ([], s)
  | q :: qs =>
    let r := s.callT q.1 q.2
    let rest := runCallsSimple r.2 qs
    (r.1 :: rest.1, rest.2)

/-- The component's single failure mode: a color identifier the rendering
surface cannot parse. -/
inductive PyError : Type where
  | invalidColorSpec (color : String)
deriving DecidableEq

/-- Modelled from the spec: the external rendering surface (the `wordcloud`
package, whose code is not under the example's source).  Per §6 it supplies a
color-parsing/validation routine and the shade rule used by the
shade-function factory; both are delegated, so the development is
parameterized over them.  `parse` returns the parsed base color, or `none`
for an unparseable identifier. -/
structure Surface where
  parse : String → Option Nat
  shade : Nat → String → Kwargs → String

/-- Modelled from the spec: a shade-generating function returned by
`wordcloud.get_single_color_func` — per §9 "a capability object (a function
value bound to a base color)", represented as the captured parsed base
color; applying it (see `SingleColorFunc.call`) uses the surface's delegated
shade rule. -/
structure SingleColorFunc where
  base : Nat
deriving DecidableEq

/-- Modelled from the spec: `wordcloud.get_single_color_func(color)`, the
shade-function factory `(base_color) -> (word, **kwargs) -> ColorSpec` of §6.
It eagerly parses the color identifier, raising `InvalidColorSpec` when the
identifier cannot be parsed (§7), and otherwise returns the shade-generating
callable bound to the parsed base color. -/
def get_single_color_func (S : Surface) (color : String) :
    Except PyError SingleColorFunc :=
  match S.parse color with
  | none => .error (.invalidColorSpec color)
  | some b => .ok ⟨b⟩

/-- Applying a shade-generating function to a word and its metadata: the
shade rule is delegated to the rendering surface (spec §4.1, shade
generation sub-contract). -/
def SingleColorFunc.call (S : Surface) (f : SingleColorFunc) (word : String)
    (kwargs : Kwargs) : String :=
  S.shade f.base word kwargs

/-- State of `GroupedColorFunc`: the list of (color function, word set) pairs
and the default color function, both assigned in `__init__`.  Python's
`set(words)` is kept as the word list; only membership is ever used. -/
structure GroupedColorFunc where
  color_func_to_words : List (SingleColorFunc × List String)
  default_color_func : SingleColorFunc
deriving DecidableEq

/-- The list comprehension of `GroupedColorFunc.__init__`:
`[(get_single_color_func(color), set(words)) for (color, words) in
color_to_words.items()]`.  The comprehension evaluates in input order, so the
first unparseable group color raises. -/
def buildColorFuncs (S : Surface) :
    List (String × List String) →
    Except PyError (List (SingleColorFunc × List String))
  | [] => .ok []
  | cw :: rest =>
    match get_single_color_func S cw.1 with
    | .error e => .error e
    | .ok f =>
      match buildColorFuncs S rest with
      | .error e => .error e
      | .ok tail => .ok ((f, cw.2) :: tail)

/-- `GroupedColorFunc.__init__(color_to_words, default_color)`: build the
comprehension first, then convert the default color; either step may raise
`InvalidColorSpec`. -/
def GroupedColorFunc.init (S : Surface)
    (color_to_words : List (String × List String)) (default_color : String) :
    Except PyError GroupedColorFunc :=
  match buildColorFuncs S color_to_words with
  | .error e => .error e
  | .ok cftw =>
    match get_single_color_func S default_color with
    | .error e => .error e
    | .ok dcf => .ok { color_func_to_words := cftw, default_color_func := dcf }

/-- `GroupedColorFunc.get_color_func(word)`: `next(color_func for
(color_func, words) in self.color_func_to_words if word in words)`, falling
back to `self.default_color_func` on `StopIteration` — the first pair whose
word set contains the word, else the default. -/
def GroupedColorFunc.get_color_func (g : GroupedColorFunc) (word : String) :
    SingleColorFunc :=
  match g.color_func_to_words.find? (fun fw => decide (word ∈ fw.2)) with
  | some fw => fw.1
  | none => g.default_color_func

/-- `GroupedColorFunc.__call__(word, **kwargs)`:
`return self.get_color_func(word)(word, **kwargs)`. -/
def GroupedColorFunc.call (S : Surface) (g : GroupedColorFunc) (word : String)
    (kwargs : Kwargs) : String :=
  (g.get_color_func word).call S word kwargs

/-- `GroupedColorFunc.__call__` as a state transformer: the method bodies of
`get_color_func` and `__call__` contain no assignment to `self`, so the
resolver state is returned unchanged alongside the result. -/
def GroupedColorFunc.callT (S : Surface) (g : GroupedColorFunc)
    (word : String) (kwargs : Kwargs) : String × GroupedColorFunc :=
  (GroupedColorFunc.call S g word kwargs, g)

/-- A sequence of queries against a `GroupedColorFunc`, threading the
resolver state through every call. -/
def runCallsGrouped (S : Surface) (g : GroupedColorFunc) :
    List (String × Kwargs) → List String × GroupedColorFunc
  | [] => ([], g)
  | q :: qs =>
    let r := GroupedColorFunc.callT S g q.1 q.2
    let rest := runCallsGrouped S r.2 qs
    (r.1 :: rest.1, rest.2)

/-- Follows the spec's words (§9, design notes): the "first match or
fallback" lookup pattern — iterate the groups to find one whose word list
contains the word and return its color, else return the default.  Stated
separately from the source-derived `SimpleGroupedColorFunc` so the two can
be compared. -/
def specFirstMatchResolve (color_to_words : List (String × List String))
    (default_color : String) (word : String) : String :=
  match color_to_words.find? (fun cw => decide (word ∈ cw.2)) with
  | some cw => cw.1
  | none => default_color

/-- A concrete rendering surface used for witnesses: four parseable color
identifiers and a shade rule that tags the base color, the word and the font
size. -/
def testSurface : Surface where
  parse := fun c =>
    if c = "green" then some 1
    else if c = "red" then some 2
    else if c = "grey" then some 3
    else if c = "blue" then some 4
    else none
  shade := fun b w k => "shade " ++ toString b ++ " " ++ w ++ " " ++ toString k.font_size

/-- Concrete metadata used for witnesses. -/
def kw0 : Kwargs :=
  { font_size := 12, position := (0, 0), orientation := none
    random_state := 0, extra := [] }

/-- Concrete metadata, different from `kw0`, used for witnesses. -/
def kw1 : Kwargs :=
  { font_size := 40, position := (3, 5), orientation := some 90
    random_state := 7, extra := [("colormap", "viridis")] }

example :
    (SimpleGroupedColorFunc.init
      [("green", ["simple", "easy"]), ("red", ["complex", "hard"])]
      "grey").call "simple" kw0 = "green" := by decide

example :
    (SimpleGroupedColorFunc.init
      [("green", ["x"]), ("red", ["x"])] "grey").call "x" kw0 = "red" := by
  decide

example :
    GroupedColorFunc.init testSurface [("green", ["x"]), ("red", ["x"])] "grey"
      = .ok { color_func_to_words := [(⟨1⟩, ["x"]), (⟨2⟩, ["x"])]
              default_color_func := ⟨3⟩ } := rfl

example :
    GroupedColorFunc.call testSurface
      { color_func_to_words := [(⟨1⟩, ["x"]), (⟨2⟩, ["x"])]
        default_color_func := ⟨3⟩ } "x" kw0 = "shade 1 x 12" := by decide

/-! ### Characterization of the dict-comprehension index -/

theorem dictGet_dictInsert {α : Type} (d : List (String × α)) (k k' : String)
    (v : α) :
    dictGet (dictInsert d k v) k' = if k' = k then some v else dictGet d k' := by
  induction d with
  | nil =>
    by_cases h : k' = k
    · subst h; simp [dictInsert, dictGet]
    · simp [dictInsert, dictGet, h, Ne.symm h]
  | cons p rest ih =>
    obtain ⟨pk, pv⟩ := p
    by_cases hpk : pk = k
    · subst hpk
      by_cases h : k' = pk
      · subst h; simp [dictInsert, dictGet]
      · simp [dictInsert, dictGet, h, Ne.symm h]
    · by_cases hpk' : pk = k'
      · subst hpk'
        simp [dictInsert, dictGet, hpk, Ne.symm hpk]
      · simp [dictInsert, dictGet, hpk, hpk', ih]

theorem dictGet_insertGroup (c : String) (ws : List String)
    (d : List (String × String)) (w : String) :
    dictGet (ws.foldl (fun d x => dictInsert d x c) d) w
      = if w ∈ ws then some c else dictGet d w := by
  induction ws generalizing d with
  | nil => simp
  | cons x ws ih =>
    simp only [List.foldl_cons, ih, dictGet_dictInsert]
    by_cases hx : w = x
    · subst hx
      by_cases hw : w ∈ ws <;> simp [hw]
    · by_cases hw : w ∈ ws <;> simp [hx, hw]

theorem dictGet_buildIndexAux (m : List (String × List String))
    (d : List (String × String)) (w : String) :
    dictGet
      (m.foldl (fun d cw => cw.2.foldl (fun d x => dictInsert d x cw.1) d) d) w
      = Option.or ((m.reverse.find? (fun cw => decide (w ∈ cw.2))).map Prod.fst)
          (dictGet d w) := by
  induction m generalizing d with
  | nil => simp
  | cons cw m ih =>
    simp only [List.foldl_cons, ih, dictGet_insertGroup, List.reverse_cons,
      List.find?_append]
    rcases hf : m.reverse.find? (fun cw => decide (w ∈ cw.2)) with _ | x
    · by_cases hw : w ∈ cw.2 <;> simp [hf, hw, List.find?]
    · simp [hf]

/-- The word-to-color index of `SimpleGroupedColorFunc` is last-write-wins at
word granularity: resolving a word yields the color of the last group, in
input iteration order, whose word list contains it, else the default. -/
theorem simple_call_eq (m : List (String × List String)) (d w : String)
    (k : Kwargs) :
    (SimpleGroupedColorFunc.init m d).call w k
      = ((m.reverse.find? (fun cw => decide (w ∈ cw.2))).map Prod.fst).getD d := by
  show (dictGet (buildIndex m) w).getD d = _
  rw [buildIndex, dictGet_buildIndexAux]
  rcases m.reverse.find? (fun cw => decide (w ∈ cw.2)) with _ | x <;>
    simp [dictGet]

/-! ### `find?` versus `filter` and `countP` -/

theorem find?_of_filter_eq_singleton {α : Type} {p : α → Bool} {l : List α}
    {a : α} (h : l.filter p = [a]) : l.find? p = some a := by
  induction l with
  | nil => simp at h
  | cons x l ih =>
    rcases hp : p x with _ | _
    · rw [List.filter_cons_of_neg (by simp [hp])] at h
      rw [List.find?_cons_of_neg l (by simp [hp])]
      exact ih h
    · rw [List.filter_cons_of_pos hp] at h
      obtain ⟨rfl, -⟩ := List.cons_eq_cons.mp h
      exact List.find?_cons_of_pos l hp

theorem reverse_find?_of_filter_eq_singleton {α : Type} {p : α → Bool}
    {l : List α} {a : α} (h : l.filter p = [a]) :
    l.reverse.find? p = some a :=
  find?_of_filter_eq_singleton (by rw [List.filter_reverse, h, List.reverse_singleton])

theorem reverse_find?_eq_find?_of_countP_le_one {α : Type} (p : α → Bool)
    (l : List α) (h : l.countP p ≤ 1) : l.reverse.find? p = l.find? p := by
  rcases hf : l.filter p with _ | ⟨a, rest⟩
  · have h1 : l.find? p = none :=
      List.find?_eq_none.mpr (List.filter_eq_nil_iff.mp hf)
    have h2 : l.reverse.find? p = none :=
      List.find?_eq_none.mpr fun x hx =>
        List.filter_eq_nil_iff.mp hf x (List.mem_reverse.mp hx)
    rw [h1, h2]
  · have hc : l.countP p = rest.length + 1 := by
      rw [List.countP_eq_length_filter, hf, List.length_cons]
    have hrest : rest = [] := by
      have : rest.length = 0 := by omega
      exact List.length_eq_zero.mp this
    subst hrest
    rw [find?_of_filter_eq_singleton hf, reverse_find?_of_filter_eq_singleton hf]

/-! ### The shade-aware variant's construction and selection -/

theorem parse_isSome_of_ok (S : Surface) (c : String) (f : SingleColorFunc)
    (h : get_single_color_func S c = .ok f) : (S.parse c).isSome := by
  rw [get_single_color_func] at h
  rcases hp : S.parse c with _ | b <;> rw [hp] at h <;> simp_all

theorem get_single_color_func_error_spec (S : Surface) (c : String)
    (e : PyError) (h : get_single_color_func S c = .error e) :
    e = .invalidColorSpec c ∧ S.parse c = none := by
  rw [get_single_color_func] at h
  rcases hp : S.parse c with _ | b <;> rw [hp] at h
  · refine ⟨?_, rfl⟩
    injection h with h
    exact h.symm
  · simp at h

theorem get_single_color_func_of_parse_none (S : Surface) (c : String)
    (h : S.parse c = none) :
    get_single_color_func S c = .error (.invalidColorSpec c) := by
  rw [get_single_color_func, h]

theorem buildColorFuncs_ok_parse (S : Surface)
    (m : List (String × List String)) (l : List (SingleColorFunc × List String))
    (h : buildColorFuncs S m = .ok l) :
    ∀ c ∈ m.map Prod.fst, (S.parse c).isSome := by
  induction m generalizing l with
  | nil => simp
  | cons cw m ih =>
    rw [buildColorFuncs] at h
    rcases hg : get_single_color_func S cw.1 with e | f <;> rw [hg] at h
    · simp at h
    · rcases hb : buildColorFuncs S m with e | tail <;> rw [hb] at h
      · simp at h
      · simp only [List.map_cons, List.mem_cons]
        rintro c (rfl | hc)
        · exact parse_isSome_of_ok S cw.1 f hg
        · exact ih tail hb c hc

theorem buildColorFuncs_error_spec (S : Surface)
    (m : List (String × List String)) (e : PyError)
    (h : buildColorFuncs S m = .error e) :
    ∃ c, e = .invalidColorSpec c ∧ S.parse c = none ∧ c ∈ m.map Prod.fst := by
  induction m generalizing e with
  | nil => simp [buildColorFuncs] at h
  | cons cw m ih =>
    rw [buildColorFuncs] at h
    rcases hg : get_single_color_func S cw.1 with e' | f <;> rw [hg] at h
    · injection h with h
      subst h
      obtain ⟨he, hp⟩ := get_single_color_func_error_spec S cw.1 e' hg
      exact ⟨cw.1, he, hp, by simp⟩
    · rcases hb : buildColorFuncs S m with e' | tail <;> rw [hb] at h
      · injection h with h
        subst h
        obtain ⟨c, hc1, hc2, hc3⟩ := ih e' hb
        exact ⟨c, hc1, hc2, by simp [hc3]⟩
      · simp at h

theorem buildColorFuncs_find_some (S : Surface)
    (m : List (String × List String)) (l : List (SingleColorFunc × List String))
    (w : String) (cw : String × List String)
    (h : buildColorFuncs S m = .ok l)
    (hf : m.find? (fun cw => decide (w ∈ cw.2)) = some cw) :
    ∃ f, get_single_color_func S cw.1 = .ok f ∧
      l.find? (fun fw => decide (w ∈ fw.2)) = some (f, cw.2) := by
  induction m generalizing l with
  | nil => simp at hf
  | cons cw' m ih =>
    rw [buildColorFuncs] at h
    rcases hg : get_single_color_func S cw'.1 with e | f' <;> rw [hg] at h
    · simp at h
    · rcases hb : buildColorFuncs S m with e | tail <;> rw [hb] at h
      · simp at h
      · injection h with h
        subst h
        by_cases hw : w ∈ cw'.2
        · rw [List.find?_cons_of_pos m (by simp [hw])] at hf
          injection hf with hf
          subst hf
          exact ⟨f', hg, List.find?_cons_of_pos tail (by simp [hw])⟩
        · rw [List.find?_cons_of_neg m (by simp [hw])] at hf
          obtain ⟨f, h1, h2⟩ := ih tail hb hf
          exact ⟨f, h1, by rw [List.find?_cons_of_neg tail (by simp [hw])]; exact h2⟩

theorem buildColorFuncs_find_none (S : Surface)
    (m : List (String × List String)) (l : List (SingleColorFunc × List String))
    (w : String)
    (h : buildColorFuncs S m = .ok l)
    (hf : m.find? (fun cw => decide (w ∈ cw.2)) = none) :
    l.find? (fun fw => decide (w ∈ fw.2)) = none := by
  induction m generalizing l with
  | nil =>
    rw [buildColorFuncs] at h
    injection h with h
    subst h
    rfl
  | cons cw' m ih =>
    rw [buildColorFuncs] at h
    rcases hg : get_single_color_func S cw'.1 with e | f' <;> rw [hg] at h
    · simp at h
    · rcases hb : buildColorFuncs S m with e | tail <;> rw [hb] at h
      · simp at h
      · injection h with h
        subst h
        by_cases hw : w ∈ cw'.2
        · rw [List.find?_cons_of_pos m (by simp [hw])] at hf
          simp at hf
        · rw [List.find?_cons_of_neg m (by simp [hw])] at hf
          rw [List.find?_cons_of_neg tail (by simp [hw])]
          exact ih tail hb hf

theorem grouped_init_ok (S : Surface) (m : List (String × List String))
    (d : String) (g : GroupedColorFunc)
    (h : GroupedColorFunc.init S m d = .ok g) :
    buildColorFuncs S m = .ok g.color_func_to_words ∧
      get_single_color_func S d = .ok g.default_color_func := by
  rw [GroupedColorFunc.init] at h
  rcases hb : buildColorFuncs S m with e | cftw <;> rw [hb] at h
  · simp at h
  · rcases hd : get_single_color_func S d with e | dcf <;> rw [hd] at h
    · simp at h
    · injection h with h
      subst h
      exact ⟨rfl, rfl⟩

theorem grouped_get_color_func_first (S : Surface)
    (m : List (String × List String)) (d : String) (g : GroupedColorFunc)
    (w : String) (cw : String × List String)
    (h : GroupedColorFunc.init S m d = .ok g)
    (hf : m.find? (fun cw => decide (w ∈ cw.2)) = some cw) :
    ∃ f, get_single_color_func S cw.1 = .ok f ∧ g.get_color_func w = f := by
  obtain ⟨hb, -⟩ := grouped_init_ok S m d g h
  obtain ⟨f, h1, h2⟩ := buildColorFuncs_find_some S m g.color_func_to_words w cw hb hf
  exact ⟨f, h1, by rw [GroupedColorFunc.get_color_func, h2]⟩

theorem grouped_get_color_func_default (S : Surface)
    (m : List (String × List String)) (d : String) (g : GroupedColorFunc)
    (w : String)
    (h : GroupedColorFunc.init S m d = .ok g)
    (hf : m.find? (fun cw => decide (w ∈ cw.2)) = none) :
    g.get_color_func w = g.default_color_func := by
  obtain ⟨hb, -⟩ := grouped_init_ok S m d g h
  rw [GroupedColorFunc.get_color_func,
    buildColorFuncs_find_none S m g.color_func_to_words w hb hf]

/-! ### Range of simple resolution, and query sequences -/

theorem simple_call_range (m : List (String × List String)) (d w : String)
    (k : Kwargs) :
    (SimpleGroupedColorFunc.init m d).call w k = d ∨
      (SimpleGroupedColorFunc.init m d).call w k ∈ m.map Prod.fst := by
  rw [simple_call_eq]
  rcases hf : m.reverse.find? (fun cw => decide (w ∈ cw.2)) with _ | cw
  · left; rw [hf]; rfl
  · right
    rw [hf]
    have hm : cw ∈ m := List.mem_reverse.mp (List.mem_of_find?_eq_some hf)
    exact List.mem_map_of_mem Prod.fst hm

theorem runCallsSimple_state (s : SimpleGroupedColorFunc)
    (qs : List (String × Kwargs)) : (runCallsSimple s qs).2 = s := by
  induction qs with
  | nil => rfl
  | cons q qs ih => simp [runCallsSimple, SimpleGroupedColorFunc.callT, ih]

theorem runCallsSimple_outputs (s : SimpleGroupedColorFunc)
    (qs : List (String × Kwargs)) :
    (runCallsSimple s qs).1 = qs.map (fun q => s.call q.1 q.2) := by
  induction qs with
  | nil => rfl
  | cons q qs ih => simp [runCallsSimple, SimpleGroupedColorFunc.callT, ih]

theorem runCallsGrouped_state (S : Surface) (g : GroupedColorFunc)
    (qs : List (String × Kwargs)) : (runCallsGrouped S g qs).2 = g := by
  induction qs with
  | nil => rfl
  | cons q qs ih => simp [runCallsGrouped, GroupedColorFunc.callT, ih]

theorem runCallsGrouped_outputs (S : Surface) (g : GroupedColorFunc)
    (qs : List (String × Kwargs)) :
    (runCallsGrouped S g qs).1
      = qs.map (fun q => (g.get_color_func q.1).call S q.1 q.2) := by
  induction qs with
  | nil => rfl
  | cons q qs ih =>
    simp [runCallsGrouped, GroupedColorFunc.callT, GroupedColorFunc.call, ih]

/-! ### Claim theorems -/

/-- C1: for every word present in exactly one group of the color-to-words
mapping, resolution returns that group's color on every call — the color
identifier itself in `SimpleGroupedColorFunc`, and the shade-generating
function produced from that group's color in `GroupedColorFunc`. -/
theorem resolve_unique_group (m : List (String × List String)) (d : String)
    (S : Surface) (g : GroupedColorFunc) (w c : String) (ws : List String)
    (h1 : m.filter (fun cw => decide (w ∈ cw.2)) = [(c, ws)])
    (h2 : GroupedColorFunc.init S m d = .ok g) :
    (∀ k, (SimpleGroupedColorFunc.init m d).call w k = c) ∧
      ∃ f, get_single_color_func S c = .ok f ∧ g.get_color_func w = f := by
  constructor
  · intro k
    rw [simple_call_eq, reverse_find?_of_filter_eq_singleton h1]
    rfl
  · exact grouped_get_color_func_first S m d g w (c, ws) h2
      (find?_of_filter_eq_singleton h1)

/-- Witness for C1 on the spec's concrete scenario 1. -/
theorem resolve_unique_group_witness :
    (SimpleGroupedColorFunc.init
        [("green", ["simple", "easy"]), ("red", ["complex", "hard"])]
        "grey").call "simple" kw0 = "green" ∧
    GroupedColorFunc.get_color_func
        { color_func_to_words := [(⟨1⟩, ["simple", "easy"]), (⟨2⟩, ["complex", "hard"])]
          default_color_func := ⟨3⟩ } "simple" = ⟨1⟩ := by
  have h := resolve_unique_group
    [("green", ["simple", "easy"]), ("red", ["complex", "hard"])] "grey"
    testSurface
    { color_func_to_words := [(⟨1⟩, ["simple", "easy"]), (⟨2⟩, ["complex", "hard"])]
      default_color_func := ⟨3⟩ }
    "simple" "green" ["simple", "easy"] (by decide) rfl
  obtain ⟨hs, f, hf1, hf2⟩ := h
  have hok : get_single_color_func testSurface "green" = .ok ⟨1⟩ := rfl
  rw [hok] at hf1
  injection hf1 with hf1
  refine ⟨hs kw0, ?_⟩
  rw [hf2, ← hf1]

/-- C2: for every word absent from every group (including the empty-mapping
case), resolution returns the default color's rendering value on every call —
the default identifier in `SimpleGroupedColorFunc`, the result of the default
shade-generating function in `GroupedColorFunc`. -/
theorem resolve_absent_default (m : List (String × List String)) (d : String)
    (S : Surface) (g : GroupedColorFunc) (w : String)
    (h1 : ∀ cw ∈ m, w ∉ cw.2)
    (h2 : GroupedColorFunc.init S m d = .ok g) :
    (∀ k, (SimpleGroupedColorFunc.init m d).call w k = d) ∧
      (∀ k, GroupedColorFunc.call S g w k = g.default_color_func.call S w k) := by
  have hfind : m.find? (fun cw => decide (w ∈ cw.2)) = none :=
    List.find?_eq_none.mpr fun x hx => by simpa using h1 x hx
  constructor
  · intro k
    have hrev : m.reverse.find? (fun cw => decide (w ∈ cw.2)) = none :=
      List.find?_eq_none.mpr fun x hx => by
        simpa using h1 x (List.mem_reverse.mp hx)
    rw [simple_call_eq, hrev]
    rfl
  · intro k
    rw [GroupedColorFunc.call,
      grouped_get_color_func_default S m d g w h2 hfind]

/-- Witness for C2 on the spec's concrete scenario 2: empty groups mapping,
default blue. -/
theorem resolve_absent_default_witness :
    (SimpleGroupedColorFunc.init [] "blue").call "anything" kw0 = "blue" ∧
    GroupedColorFunc.call testSurface
        { color_func_to_words := [], default_color_func := ⟨4⟩ } "anything" kw0
      = SingleColorFunc.call testSurface ⟨4⟩ "anything" kw0 := by
  have h := resolve_absent_default [] "blue" testSurface
    { color_func_to_words := [], default_color_func := ⟨4⟩ } "anything"
    (by simp) rfl
  exact ⟨h.1 kw0, h.2 kw0⟩

/-- C3 counterexample: the claim asserts last-write-wins resolution for
ambiguous words in both variants, but `GroupedColorFunc.get_color_func` is
first-match-wins.  With groups green then red both containing the word `x`,
the simple variant resolves `x` to red (the last group), while the
shade-aware variant selects the green group's color function, whose applied
shade differs from the red one's. -/
theorem last_write_wins_counterexample :
    GroupedColorFunc.init testSurface [("green", ["x"]), ("red", ["x"])] "grey"
        = .ok { color_func_to_words := [(⟨1⟩, ["x"]), (⟨2⟩, ["x"])]
                default_color_func := ⟨3⟩ } ∧
    (SimpleGroupedColorFunc.init [("green", ["x"]), ("red", ["x"])]
        "grey").call "x" kw0 = "red" ∧
    get_single_color_func testSurface "red" = .ok ⟨2⟩ ∧
    GroupedColorFunc.get_color_func
        { color_func_to_words := [(⟨1⟩, ["x"]), (⟨2⟩, ["x"])]
          default_color_func := ⟨3⟩ } "x" = ⟨1⟩ ∧
    (⟨1⟩ : SingleColorFunc) ≠ ⟨2⟩ ∧
    GroupedColorFunc.call testSurface
        { color_func_to_words := [(⟨1⟩, ["x"]), (⟨2⟩, ["x"])]
          default_color_func := ⟨3⟩ } "x" kw0
      ≠ SingleColorFunc.call testSurface ⟨2⟩ "x" kw0 :=
  ⟨rfl, by decide, rfl, by decide, by decide, by decide⟩

/-- C3 (amended): for a word appearing in more than one group, the simple
variant's dict-comprehension index holds exactly one mapping, chosen
last-write-wins under the input iteration order, so
`SimpleGroupedColorFunc` resolves the word to the color of the last
containing group; the shade-aware `GroupedColorFunc`, however, selects the
color function of the first containing group. -/
theorem duplicate_word_resolution (m : List (String × List String))
    (d : String) (S : Surface) (g : GroupedColorFunc) (w : String)
    (cl cf : String × List String)
    (_hcount : 1 < m.countP (fun cw => decide (w ∈ cw.2)))
    (hlast : m.reverse.find? (fun cw => decide (w ∈ cw.2)) = some cl)
    (hfirst : m.find? (fun cw => decide (w ∈ cw.2)) = some cf)
    (h2 : GroupedColorFunc.init S m d = .ok g) :
    (∀ k, (SimpleGroupedColorFunc.init m d).call w k = cl.1) ∧
      ∃ f, get_single_color_func S cf.1 = .ok f ∧ g.get_color_func w = f := by
  constructor
  · intro k
    rw [simple_call_eq, hlast]
    rfl
  · exact grouped_get_color_func_first S m d g w cf h2 hfirst

/-- Witness for C3 (amended) on the spec's concrete scenario 3: the word `x`
in both the green and the red group. -/
theorem duplicate_word_resolution_witness :
    (SimpleGroupedColorFunc.init [("green", ["x"]), ("red", ["x"])]
        "grey").call "x" kw0 = "red" ∧
    GroupedColorFunc.get_color_func
        { color_func_to_words := [(⟨1⟩, ["x"]), (⟨2⟩, ["x"])]
          default_color_func := ⟨3⟩ } "x" = ⟨1⟩ := by
  have h := duplicate_word_resolution [("green", ["x"]), ("red", ["x"])]
    "grey" testSurface
    { color_func_to_words := [(⟨1⟩, ["x"]), (⟨2⟩, ["x"])]
      default_color_func := ⟨3⟩ }
    "x" ("red", ["x"]) ("green", ["x"]) (by decide) (by decide) (by decide) rfl
  obtain ⟨hs, f, hf1, hf2⟩ := h
  have hok : get_single_color_func testSurface "green" = .ok ⟨1⟩ := rfl
  rw [hok] at hf1
  injection hf1 with hf1
  refine ⟨hs kw0, ?_⟩
  rw [hf2, ← hf1]

/-- C4: an unparseable color identifier (a group color or the default) makes
the shade-aware construction fail eagerly with `InvalidColorSpec`, because
`GroupedColorFunc.__init__` converts every identifier into a
shade-generating callable; `SimpleGroupedColorFunc.__init__`, in contrast,
only stores raw identifiers, and its resolution totally returns a stored
identifier or the default, so no `InvalidColorSpec` arises before the
rendering surface applies the result. -/
theorem invalid_color_surfaces_at_construction (S : Surface)
    (m : List (String × List String)) (d c : String)
    (hc : S.parse c = none)
    (hmem : c ∈ m.map Prod.fst ∨ c = d) :
    (∃ c', GroupedColorFunc.init S m d = .error (.invalidColorSpec c') ∧
        S.parse c' = none) ∧
    (SimpleGroupedColorFunc.init m d).word_to_color = buildIndex m ∧
    (SimpleGroupedColorFunc.init m d).default_color = d ∧
    ∀ w k, (SimpleGroupedColorFunc.init m d).call w k = d ∨
      (SimpleGroupedColorFunc.init m d).call w k ∈ m.map Prod.fst := by
  refine ⟨?_, rfl, rfl, fun w k => simple_call_range m d w k⟩
  rcases hb : buildColorFuncs S m with e | l
  · obtain ⟨c', he, hp, -⟩ := buildColorFuncs_error_spec S m e hb
    refine ⟨c', ?_, hp⟩
    rw [GroupedColorFunc.init, hb, he]
  · have hall := buildColorFuncs_ok_parse S m l hb
    have hcd : c = d := by
      rcases hmem with hm | rfl
      · have := hall c hm
        rw [hc] at this
        simp at this
      · rfl
    subst hcd
    refine ⟨c, ?_, hc⟩
    rw [GroupedColorFunc.init, hb, get_single_color_func_of_parse_none S c hc]

/-- Witness for C4: the identifier `notacolor` is unparseable, so the
shade-aware construction errors while the simple construction succeeds and
resolves the member word to the raw identifier. -/
theorem invalid_color_surfaces_at_construction_witness :
    GroupedColorFunc.init testSurface [("notacolor", ["w"])] "grey"
        = .error (.invalidColorSpec "notacolor") ∧
    ((SimpleGroupedColorFunc.init [("notacolor", ["w"])] "grey").call "w" kw0
        = "grey" ∨
      (SimpleGroupedColorFunc.init [("notacolor", ["w"])] "grey").call "w" kw0
        ∈ [("notacolor", ["w"])].map Prod.fst) := by
  have h := invalid_color_surfaces_at_construction testSurface
    [("notacolor", ["w"])] "grey" "notacolor" rfl (Or.inl (by decide))
  obtain ⟨⟨c', h1', h2'⟩, -, -, h4⟩ := h
  have h1c := h1'
  have h0 : GroupedColorFunc.init testSurface [("notacolor", ["w"])] "grey"
      = .error (.invalidColorSpec "notacolor") := rfl
  rw [h0] at h1c
  injection h1c with ha
  injection ha with hb
  rw [← hb] at h1'
  exact ⟨h1', h4 "w" kw0⟩

/-- C5: resolution is deterministic and history-independent: across any
sequence of queries the simple variant answers each query `(w, k)` with the
fixed value `s.call w k`, and the shade-aware variant answers with the fixed
base color function `g.get_color_func w` applied to `(w, k)` — the selected
base color function depends only on the word, constant across repeated
calls. -/
theorem resolution_deterministic (S : Surface) (s : SimpleGroupedColorFunc)
    (g : GroupedColorFunc) (qs : List (String × Kwargs)) :
    (runCallsSimple s qs).1 = qs.map (fun q => s.call q.1 q.2) ∧
    (runCallsGrouped S g qs).1
      = qs.map (fun q => (g.get_color_func q.1).call S q.1 q.2) :=
  ⟨runCallsSimple_outputs s qs, runCallsGrouped_outputs S g qs⟩

/-- C6: the flat-lookup resolver built once at construction
(`SimpleGroupedColorFunc`) and the iterate-groups-first-match-else-default
resolver described by the spec select the same owning color whenever the
queried word appears in at most one group (in particular whenever no word
appears in more than one group of the input mapping). -/
theorem flat_lookup_eq_first_match (m : List (String × List String))
    (d w : String) (k : Kwargs)
    (h : m.countP (fun cw => decide (w ∈ cw.2)) ≤ 1) :
    (SimpleGroupedColorFunc.init m d).call w k = specFirstMatchResolve m d w := by
  rw [simple_call_eq,
    reverse_find?_eq_find?_of_countP_le_one (fun cw => decide (w ∈ cw.2)) m h]
  rcases hf : m.find? (fun cw => decide (w ∈ cw.2)) with _ | cw <;>
    simp [specFirstMatchResolve, hf]

/-- Witness for C6 on the spec's concrete scenario 1, whose groups are
disjoint. -/
theorem flat_lookup_eq_first_match_witness :
    (SimpleGroupedColorFunc.init
        [("green", ["simple", "easy"]), ("red", ["complex", "hard"])]
        "grey").call "complex" kw0
      = specFirstMatchResolve
          [("green", ["simple", "easy"]), ("red", ["complex", "hard"])]
          "grey" "complex" :=
  flat_lookup_eq_first_match
    [("green", ["simple", "easy"]), ("red", ["complex", "hard"])]
    "grey" "complex" kw0 (by decide)

/-- C7: the layout/rendering metadata has no bearing on color choice: for a
fixed word the simple variant returns identical values under any two
metadata argument sets, and the shade-aware variant routes any two metadata
argument sets through the identical selected base color function
`g.get_color_func w`. -/
theorem metadata_has_no_bearing (S : Surface) (s : SimpleGroupedColorFunc)
    (g : GroupedColorFunc) (w : String) (k1 k2 : Kwargs) :
    s.call w k1 = s.call w k2 ∧
    GroupedColorFunc.call S g w k1 = (g.get_color_func w).call S w k1 ∧
    GroupedColorFunc.call S g w k2 = (g.get_color_func w).call S w k2 :=
  ⟨rfl, rfl, rfl⟩

/-- C8: resolution in the simple variant is total: for every constructed
resolver, word and metadata, `SimpleGroupedColorFunc.call` returns a value —
always either a stored group color or the default — and its defining
equations raise nothing. -/
theorem simple_resolution_total (m : List (String × List String))
    (d w : String) (k : Kwargs) :
    (SimpleGroupedColorFunc.init m d).call w k = d ∨
      (SimpleGroupedColorFunc.init m d).call w k ∈ m.map Prod.fst :=
  simple_call_range m d w k

/-- C9: the resolver state is assigned only at construction and never
mutated by resolution: a single call and any sequence of calls leave every
field of either resolver identical to its initial value. -/
theorem resolver_state_immutable (S : Surface) (s : SimpleGroupedColorFunc)
    (g : GroupedColorFunc) (qs : List (String × Kwargs)) (w : String)
    (k : Kwargs) :
    (s.callT w k).2 = s ∧
    (GroupedColorFunc.callT S g w k).2 = g ∧
    (runCallsSimple s qs).2 = s ∧
    (runCallsGrouped S g qs).2 = g :=
  ⟨rfl, rfl, runCallsSimple_state s qs, runCallsGrouped_state S g qs⟩

/-- C10: `GroupedColorFunc.get_color_func` is first-match-wins: it selects
the color function of the first group, in input iteration order, whose word
set contains the word; on the ambiguous word `x` in a green-then-red input
this selects the green group's function while the simple variant's
last-write-wins index resolves `x` to red. -/
theorem grouped_first_match_selection (S : Surface)
    (m : List (String × List String)) (d : String) (g : GroupedColorFunc)
    (w : String) (cw : String × List String)
    (h : GroupedColorFunc.init S m d = .ok g)
    (hf : m.find? (fun cw => decide (w ∈ cw.2)) = some cw) :
    (∃ f, get_single_color_func S cw.1 = .ok f ∧ g.get_color_func w = f) ∧
    GroupedColorFunc.get_color_func
        { color_func_to_words := [(⟨1⟩, ["x"]), (⟨2⟩, ["x"])]
          default_color_func := ⟨3⟩ } "x" = ⟨1⟩ ∧
    get_single_color_func testSurface "green" = .ok ⟨1⟩ ∧
    get_single_color_func testSurface "red" = .ok ⟨2⟩ ∧
    (⟨1⟩ : SingleColorFunc) ≠ ⟨2⟩ ∧
    (SimpleGroupedColorFunc.init [("green", ["x"]), ("red", ["x"])]
        "grey").call "x" kw0 = "red" :=
  ⟨grouped_get_color_func_first S m d g w cw h hf,
    by decide, rfl, rfl, by decide, by decide⟩

/-- Witness for C10 on the ambiguous green-then-red input. -/
theorem grouped_first_match_selection_witness :
    GroupedColorFunc.get_color_func
        { color_func_to_words := [(⟨1⟩, ["x"]), (⟨2⟩, ["x"])]
          default_color_func := ⟨3⟩ } "x" = ⟨1⟩ := by
  have h := grouped_first_match_selection testSurface
    [("green", ["x"]), ("red", ["x"])] "grey"
    { color_func_to_words := [(⟨1⟩, ["x"]), (⟨2⟩, ["x"])]
      default_color_func := ⟨3⟩ }
    "x" ("green", ["x"]) rfl (by decide)
  exact h.2.1
